import Mathlib

/-!
Shallow embedding of the temporal-graph-vis repository's core:

* `src/backend/app.py` — the windowed-subgraph query engine
  (`_get_overall_time_range_tx`, `_get_filtered_graph_data_tx`) and the
  query facade (`get_graph_data`);
* `src/scripts/ingest_data.py` — the ingestion pipeline
  (`datetime_to_ms_epoch`, the record-preparation loop of `main`, and
  `ingest_data_batch`).

The Neo4j store is modelled as a list of node identities plus a list of
directed, timestamped `REPOSTED` edges (a multigraph: the edge list may
contain duplicates).  Cypher's `MERGE` on a node becomes insert-if-absent,
`CREATE` of a relationship becomes list append, and the read queries become
list filtering / counting, following the Cypher text clause by clause.
-/

namespace TemporalGraphVis

/-- A persisted `REPOSTED` relationship: directed edge from `source` to
`target` carrying an integer millisecond timestamp (property `timestamp`). -/
structure Edge where
  source : String
  target : String
  timestamp : Int
deriving DecidableEq, Repr

/-- One entry of the `nodes_data` list produced by
`_get_filtered_graph_data_tx`: `{id: n.channel_id, label: n.channel_id,
degree: degree_in_window}`. -/
structure NodeData where
  id : String
  label : String
  degree : Nat
deriving DecidableEq, Repr

/-- The persistent graph store: `Channel` nodes (identified by their unique
`channel_id`, enforced by the uniqueness constraint of
`create_constraints_indexes`) and `REPOSTED` edges.  Edges are a list, not a
set: repeated (source, target, timestamp) triples are distinct records. -/
structure Store where
  nodes : List String
  edges : List Edge
deriving DecidableEq, Repr

def Store.empty : Store := ⟨[], []⟩

/-- The window predicate of the Cypher queries:
`r.timestamp >= $startTime AND r.timestamp <= $endTime`. -/
def inWindow (startT endT : Int) (e : Edge) : Bool :=
  startT ≤ e.timestamp && e.timestamp ≤ endT

/-- Incidence in either direction, as matched by the undirected pattern
`(n)-[r_deg:REPOSTED]-(neighbor)` (a self-loop is matched once). -/
def incident (n : String) (e : Edge) : Bool :=
  e.source == n || e.target == n

/-- Embedding of `_get_overall_time_range_tx`: `min(r.timestamp)` /
`max(r.timestamp)` over all `REPOSTED` relationships; when the aggregate is
null (no edges) the Python falls back to `(0, int(time.time() * 1000))`.
The wall clock is passed in as `now`. -/
def overallTimeRange (S : Store) (now : Int) : Int × Int :=
  match S.edges.map Edge.timestamp with
  | [] => (0, now)
  | t :: ts => (ts.foldl min t, ts.foldl max t)

/-- The `count { MATCH (n)-[r_deg:REPOSTED]-(neighbor) WHERE r_deg.timestamp
>= $startTime AND r_deg.timestamp <= $endTime }` subquery of
`_get_filtered_graph_data_tx`: the number of store edges incident to `n`
(either direction) whose timestamp lies in the window. -/
def degreeInWindow (S : Store) (startT endT : Int) (n : String) : Nat :=
  S.edges.countP fun e => incident n e && inWindow startT endT e

/-- Embedding of `_get_filtered_graph_data_tx`, clause by clause:
1. `MATCH (source)-[r:REPOSTED]->(target) WHERE …` — filter the edge list by
   the window; the matches (in store order) are `links_in_window`.
2. `collect(DISTINCT source) + collect(DISTINCT target)` — deduplicated
   sources appended to deduplicated targets.
3. `UNWIND … WITH n, …, count { … } AS degree_in_window` — per node, the
   windowed degree re-counted against the whole store.
4. `collect(DISTINCT {id: …, label: …, degree: …})` — deduplicated node
   records.
When no relationship matches, the query yields no row and the Python
returns `([], [])`; here the same filter makes every list empty. -/
def filteredGraphData (S : Store) (startT endT : Int) :
    List NodeData × List Edge :=
  let links := S.edges.filter (inWindow startT endT)
  let nodesInWindow :=
    (links.map Edge.source).dedup ++ (links.map Edge.target).dedup
  let nodesData := (nodesInWindow.map fun n =>
    ({ id := n, label := n, degree := degreeInWindow S startT endT n } :
      NodeData)).dedup
  (nodesData, links)

/-! ### The query facade `get_graph_data` -/

/-- Digit-string evaluation used by the model of Python's `int`. -/
def parseDigits (cs : List Char) : Option Nat :=
  if cs ≠ [] ∧ cs.all Char.isDigit then
    some (cs.foldl (fun acc c => acc * 10 + (c.toNat - '0'.toNat)) 0)
  else
    none

/-- Model of Python's `int(str)` as used on query parameters: an optional
sign followed by at least one decimal digit yields the integer; anything
else (in particular the empty string) raises `ValueError`, modelled as
`none`. -/
def pyInt (s : String) : Option Int :=
  match s.data with
  | '-' :: rest => (parseDigits rest).map fun n => -(n : Int)
  | '+' :: rest => (parseDigits rest).map fun n => (n : Int)
  | cs => (parseDigits cs).map fun n => (n : Int)

/-- The body of the 400 response returned on a malformed parameter. -/
def invalidTimestampMsg : String :=
  "Invalid timestamp format for start_time/end_time. Expecting integer milliseconds."

/-- The parameter handling of `get_graph_data` for one of `start_time` /
`end_time`: `request.args.get` yields `none` when absent; the value is
parsed only under `if start_time_str:`, so `none` and `some ""` both leave
the parameter unset, and a truthy string that `int()` rejects produces the
400 response. -/
def parseParam (arg : Option String) : Except String (Option Int) :=
  match arg with
  | none => Except.ok none
  | some s =>
    if s = "" then Except.ok none
    else
      match pyInt s with
      | some n => Except.ok (some n)
      | none => Except.error invalidTimestampMsg

/-- The swap at the end of parameter handling: `if start_time_ms >
end_time_ms: start_time_ms, end_time_ms = end_time_ms, start_time_ms`. -/
def normalizeWindow (s e : Int) : Int × Int :=
  if s > e then (e, s) else (s, e)

/-- The JSON body built by `get_graph_data`. -/
structure GraphResponse where
  nodes : List NodeData
  links : List Edge
  min_timestamp : Int
  max_timestamp : Int
deriving DecidableEq, Repr

/-- Embedding of `get_graph_data` (the `/graph-data` handler), past the
connection check: resolve the overall range, parse/validate the two parameters
(returning the 400 error body on failure), default missing ones to the
overall range, swap an inverted window, run the filtered query, and build
the response. -/
def get_graph_data (S : Store) (now : Int) (startArg endArg : Option String) :
    Except String GraphResponse := do
  let (minOverall, maxOverall) := overallTimeRange S now
  let startOpt ← parseParam startArg
  let endOpt ← parseParam endArg
  let startMs := startOpt.getD minOverall
  let endMs := endOpt.getD maxOverall
  let (s, e) := normalizeWindow startMs endMs
  let (nodesData, linksData) := filteredGraphData S s e
  return { nodes := nodesData, links := linksData,
           min_timestamp := minOverall, max_timestamp := maxOverall }

/-! ### The ingestion pipeline (`src/scripts/ingest_data.py`) -/

/-- A pandas datetime cell as seen by the preparation loop: either missing
(`pd.isna`) or a datetime whose UTC-normalized epoch-millisecond value is
`ms`. -/
inductive PyDatetime where
  | na : PyDatetime
  | val (ms : Int) : PyDatetime
deriving DecidableEq, Repr

/-- Embedding of `datetime_to_ms_epoch`: `None` on a missing value,
otherwise the epoch-millisecond conversion. -/
def datetime_to_ms_epoch : PyDatetime → Option Int
  | PyDatetime.na => none
  | PyDatetime.val ms => some ms

/-- A raw dataframe row restricted to the three required columns; `none`
models a `pd.isna` identifier cell.  Identifiers are already in the
canonical string form produced by `str(...)`. -/
structure RawRecord where
  channel_from_id : Option String
  channel_id : Option String
  publish_datetime : PyDatetime
deriving DecidableEq, Repr

/-- One prepared dict of `data_for_neo4j`:
`{'source_id': …, 'target_id': …, 'timestamp_ms': …}`. -/
structure IngestRow where
  source_id : String
  target_id : String
  timestamp_ms : Int
deriving DecidableEq, Repr

/-- The body of the preparation loop of `main` for one row: skip
(`continue`) when the source id, target id or datetime is missing, or when
`datetime_to_ms_epoch` returns `None`; otherwise emit the prepared row. -/
def prepareRecord (r : RawRecord) : Option IngestRow :=
  match r.channel_from_id, r.channel_id with
  | some src, some tgt =>
    if r.publish_datetime = PyDatetime.na then none
    else
      match datetime_to_ms_epoch r.publish_datetime with
      | none => none
      | some ms => some ⟨src, tgt, ms⟩
  | _, _ => none

/-- One loop iteration acting on the accumulated
`(data_for_neo4j, processed_count, skipped_count)` state: either append the
prepared dict and bump `processed_count`, or bump `skipped_count` and
continue. -/
def prepareStep (acc : List IngestRow × Nat × Nat) (r : RawRecord) :
    List IngestRow × Nat × Nat :=
  match prepareRecord r with
  | some row => (acc.1 ++ [row], acc.2.1 + 1, acc.2.2)
  | none => (acc.1, acc.2.1, acc.2.2 + 1)

/-- The whole preparation loop: returns `data_for_neo4j`,
`processed_count` and `skipped_count`. -/
def prepareData (rows : List RawRecord) : List IngestRow × Nat × Nat :=
  rows.foldl prepareStep ([], 0, 0)

/-- Node `MERGE (x:Channel {channel_id: id})`: create-if-absent by unique
identity. -/
def mergeNode (S : Store) (id : String) : Store :=
  if id ∈ S.nodes then S else { S with nodes := S.nodes ++ [id] }

/-- The relationship built by
`CREATE (source)-[:REPOSTED {timestamp: row.timestamp_ms}]->(target)`. -/
def Edge.ofRow (r : IngestRow) : Edge :=
  ⟨r.source_id, r.target_id, r.timestamp_ms⟩

/-- One `UNWIND` iteration of `ingest_data_batch`: `MERGE` the source node,
`MERGE` the target node, then `CREATE` a fresh `REPOSTED` relationship.
(The `WHERE … IS NOT NULL` guard is vacuous here: every prepared row
carries concrete values, exactly as the rows `main` builds.) -/
def ingestRowStep (S : Store) (r : IngestRow) : Store :=
  let S1 := mergeNode S r.source_id
  let S2 := mergeNode S1 r.target_id
  { S2 with edges := S2.edges ++ [Edge.ofRow r] }

/-- Embedding of `ingest_data_batch`: the batch is `UNWIND`-processed row
by row inside one transaction. -/
def ingest_data_batch (S : Store) (batch : List IngestRow) : Store :=
  batch.foldl ingestRowStep S

/-- The batching loop of `main`: `for i in range(0, len(data), batch_size)`
slices the prepared rows into consecutive chunks of `n + 1` records
(`batch_size = 1000 = 999 + 1`).  The structural `fuel` argument bounds the
number of loop iterations; it is instantiated with the list length, which
always suffices. -/
def chunksFuel (n : Nat) : Nat → List IngestRow → List (List IngestRow)
  | 0, _ => []
  | _ + 1, [] => []
  | fuel + 1, a :: l => (a :: l.take n) :: chunksFuel n fuel (l.drop n)

/-- The prepared rows sliced into batches of `n + 1`. -/
def chunksOfSucc (n : Nat) (l : List IngestRow) : List (List IngestRow) :=
  chunksFuel n l.length l

/-- The full ingestion run of `main` on already-loaded rows: prepare, slice
into batches of 1000, and apply each batch transaction in order. -/
def ingestRun (S : Store) (rows : List RawRecord) : Store :=
  (chunksOfSucc 999 (prepareData rows).1).foldl ingest_data_batch S

/-! ### Auxiliary definitions used by the verification -/

/-- The response value `get_graph_data` assembles once both parameters have
been parsed to `startOpt` / `endOpt`. -/
def responseFor (S : Store) (now : Int) (startOpt endOpt : Option Int) :
    GraphResponse :=
  let (minOverall, maxOverall) := overallTimeRange S now
  let (s, e) := normalizeWindow (startOpt.getD minOverall) (endOpt.getD maxOverall)
  let (nodesData, linksData) := filteredGraphData S s e
  { nodes := nodesData, links := linksData,
    min_timestamp := minOverall, max_timestamp := maxOverall }

/-- Decidable equality of request outcomes, so concrete witnesses can be
checked by evaluation. -/
instance instDecEqExcept {ε α : Type} [DecidableEq ε] [DecidableEq α] :
    DecidableEq (Except ε α) := fun x y =>
  match x, y with
  | Except.ok a, Except.ok b =>
    if h : a = b then isTrue (by rw [h])
    else isFalse (by intro hc; cases hc; exact h rfl)
  | Except.error a, Except.error b =>
    if h : a = b then isTrue (by rw [h])
    else isFalse (by intro hc; cases hc; exact h rfl)
  | Except.ok _, Except.error _ => isFalse (by intro hc; cases hc)
  | Except.error _, Except.ok _ => isFalse (by intro hc; cases hc)

/-- The three source records of the spec's worked example:
`[(A,B,t=100), (B,C,t=200), (A,C,t=150)]`. -/
def exampleRecords : List RawRecord :=
  [⟨some "A", some "B", PyDatetime.val 100⟩,
   ⟨some "B", some "C", PyDatetime.val 200⟩,
   ⟨some "A", some "C", PyDatetime.val 150⟩]

/-- The store obtained by running the ingestion pipeline on the worked
example. -/
def exampleStore : Store := ingestRun Store.empty exampleRecords

/-- A small concrete store used to instantiate universally quantified
theorems. -/
def oneEdgeStore : Store := ingest_data_batch Store.empty [⟨"A", "B", 100⟩]

theorem filteredGraphData_links (S : Store) (a b : Int) :
    (filteredGraphData S a b).2 = S.edges.filter (inWindow a b) := rfl

/-- The degree subquery, which re-matches against the whole store, counts
exactly the in-window edges incident to the node. -/
theorem degreeInWindow_eq_countP_links (S : Store) (a b : Int) (n : String) :
    degreeInWindow S a b n
      = (S.edges.filter (inWindow a b)).countP (incident n) := by
  rw [degreeInWindow, List.countP_filter]

/-- Identities occurring in the returned node list are exactly the
endpoints of the in-window edges. -/
theorem nodeId_mem_iff (S : Store) (a b : Int) (x : String) :
    (∃ nd ∈ (filteredGraphData S a b).1, nd.id = x) ↔
      ∃ e ∈ (filteredGraphData S a b).2, e.source = x ∨ e.target = x := by
  simp only [filteredGraphData, List.mem_dedup, List.mem_map, List.mem_append]
  constructor
  · rintro ⟨nd, ⟨n, hn, rfl⟩, hid⟩
    rcases hn with ⟨e, he, rfl⟩ | ⟨e, he, rfl⟩
    · exact ⟨e, he, Or.inl hid⟩
    · exact ⟨e, he, Or.inr hid⟩
  · rintro ⟨e, he, hx⟩
    refine ⟨{ id := x, label := x, degree := degreeInWindow S a b x }, ⟨x, ?_, rfl⟩, rfl⟩
    rcases hx with hx | hx
    · exact Or.inl ⟨e, he, hx⟩
    · exact Or.inr ⟨e, he, hx⟩

/-- Every returned node record carries its identity as label and its
windowed degree. -/
theorem filteredGraphData_nodes_shape (S : Store) (a b : Int) :
    ∀ nd ∈ (filteredGraphData S a b).1,
      nd.label = nd.id ∧ nd.degree = degreeInWindow S a b nd.id := by
  intro nd hnd
  simp only [filteredGraphData, List.mem_dedup, List.mem_map,
    List.mem_append] at hnd
  obtain ⟨n, _, rfl⟩ := hnd
  exact ⟨rfl, rfl⟩

theorem filteredGraphData_nodes_nodup (S : Store) (a b : Int) :
    (filteredGraphData S a b).1.Nodup :=
  List.nodup_dedup _

/-- Counting with two mutually exclusive predicates that jointly cover a
third adds up. -/
theorem countP_add_of_split {α : Type} (p q r : α → Bool) (l : List α)
    (h : ∀ x ∈ l, ((q x = true ∨ r x = true) ↔ p x = true) ∧
      ¬(q x = true ∧ r x = true)) :
    l.countP q + l.countP r = l.countP p := by
  induction l with
  | nil => rfl
  | cons x xs ih =>
    have hx := h x (List.mem_cons_self x xs)
    have ih' := ih fun y hy => h y (List.mem_cons_of_mem x hy)
    simp only [List.countP_cons]
    cases hq : q x <;> cases hr : r x <;> cases hp : p x <;> simp_all <;> omega

/-! ### Lemmas about folded minima and maxima (`_get_overall_time_range_tx`) -/

theorem foldl_min_le (l : List Int) :
    ∀ acc : Int, l.foldl min acc ≤ acc ∧ ∀ t ∈ l, l.foldl min acc ≤ t := by
  induction l with
  | nil => exact fun acc => ⟨le_refl _, by simp⟩
  | cons x xs ih =>
    intro acc
    refine ⟨le_trans (ih (min acc x)).1 (min_le_left _ _), ?_⟩
    intro t ht
    rcases List.mem_cons.mp ht with rfl | ht'
    · exact le_trans (ih (min acc t)).1 (min_le_right _ _)
    · exact (ih (min acc x)).2 t ht'

theorem le_foldl_max (l : List Int) :
    ∀ acc : Int, acc ≤ l.foldl max acc ∧ ∀ t ∈ l, t ≤ l.foldl max acc := by
  induction l with
  | nil => exact fun acc => ⟨le_refl _, by simp⟩
  | cons x xs ih =>
    intro acc
    refine ⟨le_trans (le_max_left _ _) (ih (max acc x)).1, ?_⟩
    intro t ht
    rcases List.mem_cons.mp ht with rfl | ht'
    · exact le_trans (le_max_right _ _) (ih (max acc t)).1
    · exact (ih (max acc x)).2 t ht'

theorem foldl_min_mem (l : List Int) :
    ∀ acc : Int, l.foldl min acc = acc ∨ l.foldl min acc ∈ l := by
  induction l with
  | nil => exact fun _ => Or.inl rfl
  | cons x xs ih =>
    intro acc
    rcases ih (min acc x) with h | h
    · rw [List.foldl_cons, h]
      rcases min_choice acc x with h' | h'
      · exact Or.inl h'
      · exact Or.inr (by rw [h']; exact List.mem_cons_self x xs)
    · exact Or.inr (List.mem_cons_of_mem x h)

theorem foldl_max_mem (l : List Int) :
    ∀ acc : Int, l.foldl max acc = acc ∨ l.foldl max acc ∈ l := by
  induction l with
  | nil => exact fun _ => Or.inl rfl
  | cons x xs ih =>
    intro acc
    rcases ih (max acc x) with h | h
    · rw [List.foldl_cons, h]
      rcases max_choice acc x with h' | h'
      · exact Or.inl h'
      · exact Or.inr (by rw [h']; exact List.mem_cons_self x xs)
    · exact Or.inr (List.mem_cons_of_mem x h)

/-- On a store with at least one edge, the resolved range bounds every edge
timestamp. -/
theorem overallTimeRange_bounds (S : Store) (now : Int) (hne : S.edges ≠ []) :
    ∀ e ∈ S.edges,
      (overallTimeRange S now).1 ≤ e.timestamp ∧
        e.timestamp ≤ (overallTimeRange S now).2 := by
  intro e he
  cases hm : S.edges.map Edge.timestamp with
  | nil => exact absurd (List.map_eq_nil_iff.mp hm) hne
  | cons t ts =>
    have hrange : overallTimeRange S now = (ts.foldl min t, ts.foldl max t) := by
      unfold overallTimeRange
      rw [hm]
    have hmem : e.timestamp ∈ t :: ts := hm ▸ List.mem_map_of_mem Edge.timestamp he
    rw [hrange]
    rcases List.mem_cons.mp hmem with h | h
    · exact ⟨by rw [h]; exact (foldl_min_le ts t).1,
        by rw [h]; exact (le_foldl_max ts t).1⟩
    · exact ⟨(foldl_min_le ts t).2 _ h, (le_foldl_max ts t).2 _ h⟩

/-- On a store with at least one edge, both resolved bounds are attained
timestamps. -/
theorem overallTimeRange_mem (S : Store) (now : Int) (hne : S.edges ≠ []) :
    (overallTimeRange S now).1 ∈ S.edges.map Edge.timestamp ∧
      (overallTimeRange S now).2 ∈ S.edges.map Edge.timestamp := by
  cases hm : S.edges.map Edge.timestamp with
  | nil => exact absurd (List.map_eq_nil_iff.mp hm) hne
  | cons t ts =>
    have hrange : overallTimeRange S now = (ts.foldl min t, ts.foldl max t) := by
      unfold overallTimeRange
      rw [hm]
    rw [hrange]
    constructor
    · rcases foldl_min_mem ts t with h | h
      · rw [h]
        exact List.mem_cons_self t ts
      · exact List.mem_cons_of_mem t h
    · rcases foldl_max_mem ts t with h | h
      · rw [h]
        exact List.mem_cons_self t ts
      · exact List.mem_cons_of_mem t h

theorem mergeNode_edges (S : Store) (id : String) :
    (mergeNode S id).edges = S.edges := by
  unfold mergeNode
  split <;> rfl

theorem mem_mergeNode_nodes (S : Store) (id x : String) :
    x ∈ (mergeNode S id).nodes ↔ x ∈ S.nodes ∨ x = id := by
  unfold mergeNode
  by_cases h : id ∈ S.nodes
  · rw [if_pos h]
    exact ⟨Or.inl, fun hx => hx.elim (fun hx => hx) (fun hx => hx ▸ h)⟩
  · rw [if_neg h]
    simp [List.mem_append]

theorem ingestRowStep_edges (S : Store) (r : IngestRow) :
    (ingestRowStep S r).edges = S.edges ++ [Edge.ofRow r] := by
  simp only [ingestRowStep]
  rw [mergeNode_edges, mergeNode_edges]

/-- A batch transaction appends exactly one fresh edge per row, in row
order: edge creation is never idempotent. -/
theorem ingest_data_batch_edges (S : Store) (batch : List IngestRow) :
    (ingest_data_batch S batch).edges = S.edges ++ batch.map Edge.ofRow := by
  induction batch generalizing S with
  | nil => simp [ingest_data_batch]
  | cons r rs ih =>
    show (ingest_data_batch (ingestRowStep S r) rs).edges = _
    rw [ih, ingestRowStep_edges]
    simp

theorem ingestRowStep_nodes_mem (S : Store) (r : IngestRow) (x : String)
    (hx : x ∈ S.nodes) : x ∈ (ingestRowStep S r).nodes := by
  simp only [ingestRowStep]
  exact (mem_mergeNode_nodes _ _ _).mpr
    (Or.inl ((mem_mergeNode_nodes _ _ _).mpr (Or.inl hx)))

theorem ingestRowStep_own_ids_mem (S : Store) (r : IngestRow) :
    r.source_id ∈ (ingestRowStep S r).nodes ∧
      r.target_id ∈ (ingestRowStep S r).nodes := by
  simp only [ingestRowStep]
  constructor
  · exact (mem_mergeNode_nodes _ _ _).mpr
      (Or.inl ((mem_mergeNode_nodes _ _ _).mpr (Or.inr rfl)))
  · exact (mem_mergeNode_nodes _ _ _).mpr (Or.inr rfl)

theorem ingest_data_batch_nodes_mem (S : Store) (batch : List IngestRow)
    (x : String) (hx : x ∈ S.nodes) : x ∈ (ingest_data_batch S batch).nodes := by
  induction batch generalizing S with
  | nil => exact hx
  | cons r rs ih => exact ih (ingestRowStep S r) (ingestRowStep_nodes_mem S r x hx)

/-- After a batch runs, every identifier mentioned by the batch is present
in the node set. -/
theorem ingest_data_batch_ids_mem (S : Store) (batch : List IngestRow) :
    ∀ r ∈ batch, r.source_id ∈ (ingest_data_batch S batch).nodes ∧
      r.target_id ∈ (ingest_data_batch S batch).nodes := by
  induction batch generalizing S with
  | nil => intro r hr; cases hr
  | cons q qs ih =>
    intro r hr
    rcases List.mem_cons.mp hr with rfl | hr'
    · constructor
      · exact ingest_data_batch_nodes_mem _ qs _ (ingestRowStep_own_ids_mem S r).1
      · exact ingest_data_batch_nodes_mem _ qs _ (ingestRowStep_own_ids_mem S r).2
    · exact ih (ingestRowStep S q) r hr'

theorem mergeNode_of_mem (S : Store) (id : String) (h : id ∈ S.nodes) :
    mergeNode S id = S := by
  unfold mergeNode
  exact if_pos h

/-- Node upserts are idempotent: merging identifiers that already exist
leaves the node set untouched. -/
theorem ingest_data_batch_nodes_of_mem (S : Store) (batch : List IngestRow)
    (h : ∀ r ∈ batch, r.source_id ∈ S.nodes ∧ r.target_id ∈ S.nodes) :
    (ingest_data_batch S batch).nodes = S.nodes := by
  induction batch generalizing S with
  | nil => rfl
  | cons r rs ih =>
    have hr := h r (List.mem_cons_self r rs)
    have hstep : (ingestRowStep S r).nodes = S.nodes := by
      simp only [ingestRowStep]
      rw [mergeNode_of_mem S _ hr.1, mergeNode_of_mem S _ hr.2]
    show (ingest_data_batch (ingestRowStep S r) rs).nodes = S.nodes
    rw [ih (ingestRowStep S r) (fun q hq => by
      rw [hstep]
      exact h q (List.mem_cons_of_mem r hq)), hstep]

/-- With enough fuel, applying the sliced batches is the same as folding
the rows one by one. -/
theorem chunksFuel_foldl (n : Nat) :
    ∀ (fuel : Nat) (l : List IngestRow), l.length ≤ fuel →
      ∀ S : Store,
        (chunksFuel n fuel l).foldl ingest_data_batch S = ingest_data_batch S l := by
  intro fuel
  induction fuel with
  | zero =>
    intro l hl S
    rw [List.eq_nil_of_length_eq_zero (Nat.le_zero.mp hl)]
    rfl
  | succ f ih =>
    intro l hl S
    cases l with
    | nil => rfl
    | cons a l =>
      show ((a :: l.take n) :: chunksFuel n f (l.drop n)).foldl ingest_data_batch S
          = ingest_data_batch S (a :: l)
      rw [List.foldl_cons,
        ih (l.drop n) (by rw [List.length_drop]; simp at hl; omega)]
      unfold ingest_data_batch
      rw [← List.foldl_append]
      congr 1
      rw [List.cons_append, List.take_append_drop]

/-- Applying the batches produced by the slicing loop is the same as
folding the rows one by one. -/
theorem chunksOfSucc_foldl (n : Nat) (l : List IngestRow) :
    ∀ S : Store,
      (chunksOfSucc n l).foldl ingest_data_batch S = ingest_data_batch S l :=
  chunksFuel_foldl n l.length l (le_refl _)

theorem ingestRun_edges (S : Store) (rows : List RawRecord) :
    (ingestRun S rows).edges
      = S.edges ++ (prepareData rows).1.map Edge.ofRow := by
  unfold ingestRun
  rw [chunksOfSucc_foldl, ingest_data_batch_edges]

theorem prepareData_foldl_acc (rows : List RawRecord) :
    ∀ acc : List IngestRow × Nat × Nat,
      rows.foldl prepareStep acc
        = (acc.1 ++ rows.filterMap prepareRecord,
           acc.2.1 + (rows.filterMap prepareRecord).length,
           acc.2.2 + rows.countP fun r => (prepareRecord r).isNone) := by
  induction rows with
  | nil => intro acc; simp
  | cons r rs ih =>
    intro acc
    rw [List.foldl_cons, ih]
    cases hr : prepareRecord r <;>
      simp [prepareStep, hr, List.countP_cons, List.filterMap_cons] <;> omega

theorem prepareData_spec (rows : List RawRecord) :
    prepareData rows
      = (rows.filterMap prepareRecord,
         (rows.filterMap prepareRecord).length,
         rows.countP fun r => (prepareRecord r).isNone) := by
  unfold prepareData
  rw [prepareData_foldl_acc]
  simp

theorem filterMap_length_add_countP_none (rows : List RawRecord) :
    (rows.filterMap prepareRecord).length
      + (rows.countP fun r => (prepareRecord r).isNone) = rows.length := by
  induction rows with
  | nil => rfl
  | cons r rs ih =>
    cases hr : prepareRecord r <;>
      simp [List.filterMap_cons, hr, List.countP_cons] <;> omega

/-- A record is skipped exactly when an essential field is missing or the
timestamp conversion yields nothing. -/
theorem prepareRecord_eq_none_iff (r : RawRecord) :
    prepareRecord r = none ↔
      r.channel_from_id = none ∨ r.channel_id = none ∨
        datetime_to_ms_epoch r.publish_datetime = none := by
  obtain ⟨src?, tgt?, dt⟩ := r
  cases src? <;> cases tgt? <;> cases dt <;>
    simp [prepareRecord, datetime_to_ms_epoch]

/-! ### Lemmas about the query facade -/

theorem parseParam_wellformed {s : String} {n : Int} (hs : s ≠ "")
    (hp : pyInt s = some n) : parseParam (some s) = Except.ok (some n) := by
  simp [parseParam, hs, hp]

theorem get_graph_data_ok_of (S : Store) (now : Int) {sa sb : Option String}
    {a? b? : Option Int} (hsa : parseParam sa = Except.ok a?)
    (hsb : parseParam sb = Except.ok b?) :
    get_graph_data S now sa sb = Except.ok (responseFor S now a? b?) := by
  unfold get_graph_data
  rw [hsa, hsb]
  rfl

/-- C1 counterexample: on the store ingested from the worked example
records, window [120, 200] includes node A (it is an endpoint of the
in-window edge (A,C,150), which the claim itself lists among the returned
edges), and node B has windowed degree 1, not 2 — so the claimed result
"nodes {B: degree 2, C: degree 2} with node A excluded" is wrong even
though the claimed edge list is right. -/
theorem C1_example_counterexample :
    ((filteredGraphData exampleStore 120 200).2
        = [⟨"B", "C", 200⟩, ⟨"A", "C", 150⟩]) ∧
      (∃ nd ∈ (filteredGraphData exampleStore 120 200).1, nd.id = "A") ∧
      ¬ (∀ nd ∈ (filteredGraphData exampleStore 120 200).1,
          (nd.id = "B" ∧ nd.degree = 2) ∨ (nd.id = "C" ∧ nd.degree = 2)) := by
  decide

/-- C1 (amended): for every window [start, end] with start ≤ end, the
windowed view returns exactly the in-window edges (inclusive bounds, ties
kept), a duplicate-free node list whose identities are exactly the
endpoints of the in-window edges, each node carrying the count of in-window
edges incident to it (never counting edges outside the window); ingesting
the worked example and querying [120, 200] yields nodes
{A: degree 1, B: degree 1, C: degree 2} and edges [(B,C,200), (A,C,150)],
with edge (A,B,100) excluded. -/
theorem C1_windowed_view (S : Store) (a b : Int) (_h : a ≤ b) :
    ((filteredGraphData S a b).2 = S.edges.filter (inWindow a b)) ∧
      (∀ x : String,
        (∃ nd ∈ (filteredGraphData S a b).1, nd.id = x) ↔
          ∃ e ∈ (filteredGraphData S a b).2, e.source = x ∨ e.target = x) ∧
      (∀ nd ∈ (filteredGraphData S a b).1,
        nd.degree = (filteredGraphData S a b).2.countP (incident nd.id)) ∧
      (filteredGraphData S a b).1.Nodup ∧
      (filteredGraphData exampleStore 120 200).1.Perm
        [⟨"A", "A", 1⟩, ⟨"B", "B", 1⟩, ⟨"C", "C", 2⟩] ∧
      ((filteredGraphData exampleStore 120 200).2
        = [⟨"B", "C", 200⟩, ⟨"A", "C", 150⟩]) := by
  refine ⟨rfl, fun x => nodeId_mem_iff S a b x, ?_,
    filteredGraphData_nodes_nodup S a b, by decide, by decide⟩
  intro nd hnd
  rw [(filteredGraphData_nodes_shape S a b nd hnd).2, filteredGraphData_links,
    degreeInWindow_eq_countP_links]

/-- C1 witness: the amended theorem applied to a concrete window. -/
theorem C1_windowed_view_witness :
    ((filteredGraphData oneEdgeStore 0 150).2
        = oneEdgeStore.edges.filter (inWindow 0 150)) ∧ (0 : Int) ≤ 150 :=
  ⟨(C1_windowed_view oneEdgeStore 0 150 (by decide)).1, by decide⟩

/-- C2: windowed degree is additive across the disjoint adjacent windows
[a, m] and [m+1, b] whose union is the contiguous interval [a, b]
(degree 0 when the node has no incident edge in a window, since the count
of an empty match set is 0). -/
theorem C2_degree_additive (S : Store) (n : String) (a m b : Int)
    (h1 : a ≤ m + 1) (h2 : m ≤ b) :
    degreeInWindow S a m n + degreeInWindow S (m + 1) b n
      = degreeInWindow S a b n := by
  unfold degreeInWindow
  apply countP_add_of_split
  intro e _
  cases hI : incident n e
  · simp
  · simp only [Bool.true_and]
    unfold inWindow
    simp only [Bool.and_eq_true, decide_eq_true_eq]
    omega

/-- C2 witness: additivity at a concrete store, node and split. -/
theorem C2_degree_additive_witness :
    degreeInWindow exampleStore 0 150 "A" + degreeInWindow exampleStore 151 300 "A"
      = degreeInWindow exampleStore 0 300 "A" :=
  C2_degree_additive exampleStore "A" 0 150 300 (by decide) (by decide)

/-- C3: on a store with at least one edge (all persisted edges carry a
timestamp by construction of the model), querying the window equal to the
resolved (min, max) pair returns every persisted edge, and a node entry for
every identifier incident to at least one edge. -/
theorem C3_overall_range_complete (S : Store) (now : Int)
    (hne : S.edges ≠ []) :
    ((filteredGraphData S (overallTimeRange S now).1
        (overallTimeRange S now).2).2 = S.edges) ∧
      ∀ x : String, (∃ e ∈ S.edges, e.source = x ∨ e.target = x) →
        ∃ nd ∈ (filteredGraphData S (overallTimeRange S now).1
            (overallTimeRange S now).2).1, nd.id = x := by
  have hall : ∀ e ∈ S.edges,
      inWindow (overallTimeRange S now).1 (overallTimeRange S now).2 e = true := by
    intro e he
    have hb := overallTimeRange_bounds S now hne e he
    unfold inWindow
    simp only [Bool.and_eq_true, decide_eq_true_eq]
    exact hb
  have hfilter : S.edges.filter
      (inWindow (overallTimeRange S now).1 (overallTimeRange S now).2) = S.edges :=
    List.filter_eq_self.mpr hall
  constructor
  · rw [filteredGraphData_links, hfilter]
  · intro x hx
    apply (nodeId_mem_iff S _ _ x).mpr
    rw [filteredGraphData_links, hfilter]
    exact hx

/-- C3 witness: completeness of the overall-range query on a concrete
store. -/
theorem C3_overall_range_complete_witness :
    (filteredGraphData oneEdgeStore (overallTimeRange oneEdgeStore 0).1
        (overallTimeRange oneEdgeStore 0).2).2 = oneEdgeStore.edges :=
  (C3_overall_range_complete oneEdgeStore 0 (by decide)).1

/-- C4: node upserts are idempotent (merge-by-identity) while edge
creation always appends a fresh record: ingesting the same batch twice
leaves the node set unchanged and takes the edge count of a pair appearing
once in the input from 1 to 2, and within one run every repeated
(source, target) pair is retained once per input row. -/
theorem C4_idempotence_asymmetry (batch : List IngestRow) (s t : String)
    (honce : batch.countP
        (fun r => r.source_id == s && r.target_id == t) = 1) :
    ((ingest_data_batch (ingest_data_batch Store.empty batch) batch).nodes
        = (ingest_data_batch Store.empty batch).nodes) ∧
      ((ingest_data_batch Store.empty batch).edges.countP
          (fun e => e.source == s && e.target == t) = 1) ∧
      ((ingest_data_batch (ingest_data_batch Store.empty batch) batch).edges.countP
          (fun e => e.source == s && e.target == t) = 2) ∧
      ∀ s' t' : String,
        (ingest_data_batch Store.empty batch).edges.countP
            (fun e => e.source == s' && e.target == t')
          = batch.countP (fun r => r.source_id == s' && r.target_id == t') := by
  have hedges : ∀ (S' : Store) (p : Edge → Bool),
      (ingest_data_batch S' batch).edges.countP p
        = S'.edges.countP p + batch.countP (fun r => p (Edge.ofRow r)) := by
    intro S' p
    rw [ingest_data_batch_edges, List.countP_append, List.countP_map]
    rfl
  have hpair : ∀ s' t' : String,
      (ingest_data_batch Store.empty batch).edges.countP
          (fun e => e.source == s' && e.target == t')
        = batch.countP (fun r => r.source_id == s' && r.target_id == t') := by
    intro s' t'
    rw [hedges]
    show List.countP _ ([] : List Edge) + _ = _
    rw [List.countP_nil, Nat.zero_add]
    rfl
  refine ⟨?_, ?_, ?_, hpair⟩
  · exact ingest_data_batch_nodes_of_mem _ batch
      (ingest_data_batch_ids_mem Store.empty batch)
  · rw [hpair s t, honce]
  · rw [hedges, hpair s t, honce]
    show 1 + batch.countP (fun r => r.source_id == s && r.target_id == t) = 2
    rw [honce]

/-- C4 witness: one concrete row ingested twice. -/
theorem C4_idempotence_asymmetry_witness :
    (ingest_data_batch (ingest_data_batch Store.empty [⟨"A", "B", 100⟩])
        [⟨"A", "B", 100⟩]).edges.countP
      (fun e => e.source == "A" && e.target == "B") = 2 :=
  (C4_idempotence_asymmetry [⟨"A", "B", 100⟩] "A" "B" (by decide)).2.2.1

/-- C5: validation skips, counts and continues past any record with a
missing source id, target id or timestamp, or failed timestamp
conversion; the loop processes every record, the accepted and skipped
counts sum to the input length, and only the accepted records are ever
persisted. -/
theorem C5_validation (rows : List RawRecord) (S : Store) :
    ((prepareData rows).2.1 + (prepareData rows).2.2 = rows.length) ∧
      ((prepareData rows).2.1 = (prepareData rows).1.length) ∧
      ((prepareData rows).1 = rows.filterMap prepareRecord) ∧
      (∀ r : RawRecord, prepareRecord r = none ↔
        r.channel_from_id = none ∨ r.channel_id = none ∨
          datetime_to_ms_epoch r.publish_datetime = none) ∧
      ((ingestRun S rows).edges
        = S.edges ++ (rows.filterMap prepareRecord).map Edge.ofRow) := by
  rw [prepareData_spec]
  refine ⟨filterMap_length_add_countP_none rows, rfl, rfl,
    prepareRecord_eq_none_iff, ?_⟩
  rw [ingestRun_edges, prepareData_spec]

/-- C5 witness: a three-record input with one record missing its source id
and one with an unconvertible timestamp gives accepted 1, skipped 2. -/
theorem C5_validation_witness :
    (prepareData [⟨none, some "B", PyDatetime.val 100⟩,
        ⟨some "A", some "B", PyDatetime.na⟩,
        ⟨some "A", some "C", PyDatetime.val 150⟩]).2.1
      + (prepareData [⟨none, some "B", PyDatetime.val 100⟩,
          ⟨some "A", some "B", PyDatetime.na⟩,
          ⟨some "A", some "C", PyDatetime.val 150⟩]).2.2 = 3 :=
  (C5_validation [⟨none, some "B", PyDatetime.val 100⟩,
      ⟨some "A", some "B", PyDatetime.na⟩,
      ⟨some "A", some "C", PyDatetime.val 150⟩] Store.empty).1

/-- C7: when both parameters are well-formed integers with start > end, the
facade swaps the bounds rather than erroring, so querying with (a, b)
behaves identically to querying with (b, a). -/
theorem C7_inverted_window (S : Store) (now : Int) (sa sb : String)
    (a b : Int) (hsa : sa ≠ "") (hsb : sb ≠ "")
    (hpa : pyInt sa = some a) (hpb : pyInt sb = some b) (hab : a > b) :
    get_graph_data S now (some sa) (some sb)
        = get_graph_data S now (some sb) (some sa) ∧
      normalizeWindow a b = (b, a) := by
  have hswap : normalizeWindow a b = (b, a) := by
    unfold normalizeWindow
    rw [if_pos hab]
  have hswap' : normalizeWindow b a = (b, a) := by
    unfold normalizeWindow
    rw [if_neg (not_lt.mpr (le_of_lt hab))]
  refine ⟨?_, hswap⟩
  rw [get_graph_data_ok_of S now (parseParam_wellformed hsa hpa)
      (parseParam_wellformed hsb hpb),
    get_graph_data_ok_of S now (parseParam_wellformed hsb hpb)
      (parseParam_wellformed hsa hpa)]
  unfold responseFor
  rcases hrange : overallTimeRange S now with ⟨lo, hi⟩
  simp only [Option.getD_some]
  rw [hswap, hswap']

/-- C7 witness: querying (200, 100) equals querying (100, 200) on a
concrete store. -/
theorem C7_inverted_window_witness :
    get_graph_data oneEdgeStore 0 (some "200") (some "100")
      = get_graph_data oneEdgeStore 0 (some "100") (some "200") :=
  (C7_inverted_window oneEdgeStore 0 "200" "100" 200 100 (by decide)
    (by decide) (by decide) (by decide) (by decide)).1

/-- C8: the overall-range operation returns the pair (minimum timestamp,
maximum timestamp) over the persisted edges, both attained, and on an
empty store it returns the documented default pair (0, now) instead of
failing. -/
theorem C8_overall_range (S : Store) (now : Int) :
    (S.edges = [] → overallTimeRange S now = (0, now)) ∧
      (S.edges ≠ [] →
        ((overallTimeRange S now).1 ∈ S.edges.map Edge.timestamp ∧
            ∀ e ∈ S.edges, (overallTimeRange S now).1 ≤ e.timestamp) ∧
          ((overallTimeRange S now).2 ∈ S.edges.map Edge.timestamp ∧
            ∀ e ∈ S.edges, e.timestamp ≤ (overallTimeRange S now).2)) := by
  constructor
  · intro h
    unfold overallTimeRange
    rw [h]
    rfl
  · intro hne
    exact ⟨⟨(overallTimeRange_mem S now hne).1,
        fun e he => (overallTimeRange_bounds S now hne e he).1⟩,
      (overallTimeRange_mem S now hne).2,
        fun e he => (overallTimeRange_bounds S now hne e he).2⟩

/-- C8 witness: the default pair on the empty store and the attained
bounds on a concrete store. -/
theorem C8_overall_range_witness :
    overallTimeRange Store.empty 12345 = (0, 12345) :=
  (C8_overall_range Store.empty 12345).1 rfl

/-- C9: any window matching no edge — empty window, window outside the
data's range, or any window against an empty store — yields empty node and
edge lists, not a failure. -/
theorem C9_no_match_empty (S : Store) (a b : Int)
    (h : ∀ e ∈ S.edges, ¬(a ≤ e.timestamp ∧ e.timestamp ≤ b)) :
    filteredGraphData S a b = ([], []) := by
  have hfil : S.edges.filter (inWindow a b) = [] := by
    apply List.filter_eq_nil_iff.mpr
    intro e he
    unfold inWindow
    simp only [Bool.and_eq_true, decide_eq_true_eq]
    exact h e he
  simp [filteredGraphData, hfil]

/-- C9 witness: a window wholly above the data of a concrete store. -/
theorem C9_no_match_empty_witness :
    filteredGraphData oneEdgeStore 200 300 = ([], []) :=
  C9_no_match_empty oneEdgeStore 200 300 (by decide)

end TemporalGraphVis
